import Mathlib

/-!
# Verification of the thoughttree conversation-graph store

Shallow embedding of the graph store (`src/store/useGraphStore.ts`, the
zustand store creating and mutating the conversation graph), the tauri
bridge (`src/lib/tauri.ts`) and the side-panel generation handler
(`src/components/SidePanel/index.tsx`), together with proofs about the
claims of the specification.

Conventions:
* JavaScript `Map` objects are modelled as insertion-ordered association
  lists (`List (String × α)`) with `mapGet` / `mapSet` / `mapDelete`
  mirroring `Map.get` / `Map.set` / `Map.delete`.
* JavaScript string truthiness (`if (s)`) is modelled as `s ≠ ""`,
  and `undefined` as `Option.none`.
* Node ids are `crypto.randomUUID()` strings in the source; freshly
  generated ids are passed as explicit parameters here.
* Timestamps (`Date.now()`) are passed as explicit `Nat` parameters.
-/

namespace ThoughtTree

/-- `role: 'user' | 'assistant'` from `src/types/index.ts`. -/
inductive Role where
  | user
  | assistant
deriving DecidableEq, Repr

/-- `MessageNodeData` (union of `UserNodeData` and `AgentNodeData`,
`src/types/index.ts`): `id`, `role`, `content`, `timestamp`, and the
optional fields `summary`, `summaryTimestamp`, `provider`, `model`
(the last two present only on assistant nodes). -/
structure MessageNodeData where
  id : String
  role : Role
  content : String
  timestamp : Nat
  summary : Option String := none
  summaryTimestamp : Option Nat := none
  provider : Option String := none
  model : Option String := none
deriving DecidableEq, Repr

/-- A ReactFlow edge as the store creates it: `{ id, source, target }`. -/
structure Edge where
  id : String
  source : String
  target : String
deriving DecidableEq, Repr

/-- A ReactFlow node as the store creates it (`ThoughtTreeNode`): `id`,
`type: 'user' | 'agent'` (as `Role`), `position`, and
`data = { nodeData, isSelected }`.  Positions only ever receive constant
offsets in the store, so they are modelled over `Int`. -/
structure FlowNode where
  id : String
  nodeType : Role
  position : Int × Int
  nodeData : MessageNodeData
  isSelected : Bool
deriving DecidableEq, Repr

/-- The graph-data and UI-pointer slice of `GraphState`
(`useGraphStore.ts`).  Provider, model and project bookkeeping fields are
omitted: no claim mentions them and no embedded operation touches them. -/
structure GraphState where
  nodes : List FlowNode
  edges : List Edge
  nodeData : List (String × MessageNodeData)
  selectedNodeId : Option String
  streamingNodeId : Option String
  editingNodeId : Option String
  previewNodeId : Option String
deriving DecidableEq, Repr

/-- `Map.get(k)`: the value of the (unique) binding of `k`, modelled as
the first binding in the association list. -/
def mapGet {α : Type} (m : List (String × α)) (k : String) : Option α :=
  (m.find? (fun p => p.1 = k)).map (·.2)

/-- `Map.set(k, v)`: overwrite the binding of `k` in place if present,
otherwise append a new binding (JavaScript `Map` insertion order). -/
def mapSet {α : Type} (m : List (String × α)) (k : String) (v : α) :
    List (String × α) :=
  if m.any (fun p => p.1 = k) then
    m.map (fun p => if p.1 = k then (k, v) else p)
  else
    m ++ [(k, v)]

/-- `Map.delete(k)`. -/
def mapDelete {α : Type} (m : List (String × α)) (k : String) :
    List (String × α) :=
  m.filter (fun p => p.1 ≠ k)

/-- The WhiteSpace/LineTerminator characters removed by JavaScript
`String.prototype.trim`. -/
def isJsWhitespace (c : Char) : Bool :=
  c = ' ' || c = '\t' || c = '\n' || c = '\r' ||
  c = '\x0b' || c = '\x0c' ||
  c = '\u00a0' || c = '\u1680' ||
  ('\u2000' ≤ c && c ≤ '\u200a') ||
  c = '\u2028' || c = '\u2029' || c = '\u202f' ||
  c = '\u205f' || c = '\u3000' || c = '\ufeff'

/-- JavaScript `s.trim()`: drop leading and trailing whitespace. -/
def jsTrim (s : String) : String :=
  ⟨((s.data.dropWhile isJsWhitespace).reverse.dropWhile isJsWhitespace).reverse⟩

/-- Termination measure for parent-chain walks: the number of ids that
could still be visited (the current id plus every parent-map value, minus
the ids already visited). -/
def walkMeasure (pmap : List (String × String)) (current : Option String)
    (visited : List String) : Nat :=
  ((current.toList ++ pmap.map Prod.snd).toFinset \ visited.toFinset).card

theorem mapGet_mem_snd {pmap : List (String × String)} {k p : String}
    (h : mapGet pmap k = some p) : p ∈ pmap.map Prod.snd := by
  unfold mapGet at h
  cases hf : pmap.find? (fun q => q.1 = k) with
  | none => simp [hf] at h
  | some q =>
    simp only [hf] at h
    have hq := List.mem_of_find?_eq_some hf
    have h2 : q.2 = p := by simpa using h
    exact h2 ▸ List.mem_map_of_mem Prod.snd hq

theorem walkMeasure_step (pmap : List (String × String)) (c : String)
    (visited : List String) (hc : c ∉ visited) :
    walkMeasure pmap (mapGet pmap c) (c :: visited) <
      walkMeasure pmap (some c) visited := by
  unfold walkMeasure
  apply Finset.card_lt_card
  constructor
  · intro x hx
    simp only [List.toFinset_append, List.toFinset_cons, Finset.mem_sdiff,
      Finset.mem_union, Finset.mem_insert, List.mem_toFinset] at hx ⊢
    obtain ⟨hx1, hx2⟩ := hx
    push_neg at hx2
    refine ⟨?_, hx2.2⟩
    rcases hx1 with h | h
    · cases hg : mapGet pmap c with
      | none => rw [hg] at h; simp [Option.toList] at h
      | some p =>
        rw [hg] at h
        simp only [Option.toList, List.mem_toFinset, List.mem_singleton] at h
        exact Or.inr (h ▸ mapGet_mem_snd hg)
    · exact Or.inr h
  · intro hsub
    have hcmem : c ∈ (((some c).toList ++ pmap.map Prod.snd).toFinset \
        visited.toFinset) := by
      simp [Option.toList, hc]
    have := hsub hcmem
    simp [Option.toList] at this

/-- The parent-chain walk shared by the store's traversals: the loop
`while (currentId && !visited.has(currentId)) { visited.add(currentId);
…; currentId = parentMap.get(currentId) }` in `buildConversationContext`,
returning the list of visited ids in visit order.  `stop` is the
JavaScript falsiness test on `currentId` (`fun c => c = ""` for the
store's loop, where the empty string is falsy; `fun _ => false` for the
spec-modelled lineage walk, whose ids are always nonempty UUIDs). -/
def walkChain (pmap : List (String × String)) (stop : String → Bool) :
    Option String → List String → List String
  | none, _ => []
  | some c, visited =>
    if stop c then []
    else if h : c ∈ visited then []
    else
      c :: walkChain pmap stop (mapGet pmap c) (c :: visited)
termination_by cur visited => walkMeasure pmap cur visited
decreasing_by
  exact walkMeasure_step pmap c visited h

/-- `buildConversationContext`'s parent lookup table:
`edges.forEach((edge) => { parentMap.set(edge.target, edge.source) })`.
Note `Map.set` overwrites, so a later edge into the same target replaces
an earlier one. -/
def buildParentMap (edges : List Edge) : List (String × String) :=
  edges.foldl (fun m e => mapSet m e.target e.source) []

/-- A context message `{ role, content }`. -/
structure CtxMsg where
  role : Role
  content : String
deriving DecidableEq, Repr

/-- One visited node's contribution to the context:
`if (data && data.content.trim()) messages.unshift({role, content})`. -/
def ctxMsgOf (ndata : List (String × MessageNodeData)) (c : String) :
    Option CtxMsg :=
  match mapGet ndata c with
  | none => none
  | some d => if jsTrim d.content = "" then none else some ⟨d.role, d.content⟩

/-- The traversal loop of `buildConversationContext` (useGraphStore.ts):
walks up the parent chain guarded by the `visited` set, prepending
(`unshift`) each nonempty visited message to the accumulator. -/
def buildCCLoop (pmap : List (String × String))
    (ndata : List (String × MessageNodeData)) :
    Option String → List String → List CtxMsg → List CtxMsg
  | none, _, messages => messages
  | some c, visited, messages =>
    if c = "" then messages
    else if h : c ∈ visited then messages
    else
      buildCCLoop pmap ndata (mapGet pmap c) (c :: visited)
        (match ctxMsgOf ndata c with
         | some msg => msg :: messages
         | none => messages)
termination_by cur visited _ => walkMeasure pmap cur visited
decreasing_by
  exact walkMeasure_step pmap c visited h

/-- `buildConversationContext(nodeId)` from useGraphStore.ts: build the
target→source parent map from the edge list, then walk up the chosen
parent chain collecting nonempty messages, ancestors first. -/
def buildConversationContext (s : GraphState) (nodeId : String) :
    List CtxMsg :=
  buildCCLoop (buildParentMap s.edges) s.nodeData (some nodeId) [] []

/-- `appendToNode(nodeId, chunk)` from useGraphStore.ts: append `chunk`
to the node's content in `nodeData` and mirror the updated record into
the flow node's `data.nodeData`; a missing id leaves the state unchanged. -/
def appendToNode (s : GraphState) (nodeId chunk : String) : GraphState :=
  match mapGet s.nodeData nodeId with
  | none => s
  | some data =>
    let updated := { data with content := data.content ++ chunk }
    { s with
      nodeData := mapSet s.nodeData nodeId updated,
      nodes := s.nodes.map (fun node =>
        if node.id = nodeId then { node with nodeData := updated } else node) }

/-- `deleteNode(nodeId)` from useGraphStore.ts: drop the id from
`nodeData` and the node list, drop every edge touching it, and null out
any UI pointer equal to it. -/
def deleteNode (s : GraphState) (nodeId : String) : GraphState :=
  { s with
    nodeData := mapDelete s.nodeData nodeId,
    nodes := s.nodes.filter (fun n => n.id ≠ nodeId),
    edges := s.edges.filter (fun e => e.source ≠ nodeId && e.target ≠ nodeId),
    selectedNodeId :=
      if s.selectedNodeId = some nodeId then none else s.selectedNodeId,
    editingNodeId :=
      if s.editingNodeId = some nodeId then none else s.editingNodeId,
    previewNodeId :=
      if s.previewNodeId = some nodeId then none else s.previewNodeId }

/-- `createAgentNodeDownstream(parentId, provider?, model?)` from
useGraphStore.ts.  The freshly generated UUID and `Date.now()` timestamp
are explicit parameters (`id`, `now`); `provider` is the already-resolved
active provider (`provider ?? defaultProvider`) and `model` the resolved
model.  Adds the assistant node below its parent, the parent→child edge,
the node data record, and selects the new node and marks it streaming. -/
def createAgentNodeDownstream (s : GraphState) (parentId id provider : String)
    (model : Option String) (now : Nat) : GraphState :=
  let data : MessageNodeData :=
    { id := id, role := .assistant, content := "", timestamp := now,
      provider := some provider, model := model }
  let position : Int × Int :=
    match s.nodes.find? (fun n => n.id = parentId) with
    | some parentNode => (parentNode.position.1, parentNode.position.2 + 120)
    | none => (100, 100)
  let node : FlowNode :=
    { id := id, nodeType := .assistant, position := position,
      nodeData := data, isSelected := false }
  let edge : Edge := { id := parentId ++ "-" ++ id, source := parentId, target := id }
  { s with
    nodes := s.nodes ++ [node],
    edges := s.edges ++ [edge],
    nodeData := mapSet s.nodeData id data,
    selectedNodeId := some id,
    streamingNodeId := some id }

/-- The spec's "chosen parent": the source of the first recorded incoming
edge of a node (spec glossary).  Used by the spec-modelled lineage guard. -/
def chosenParent (edges : List Edge) (n : String) : Option String :=
  (edges.find? (fun e => e.target = n)).map (·.source)

/-- Parent lookup table keeping the FIRST recorded incoming edge per
target (`mapGet` takes the first binding), as the spec's chosen-parent
relation prescribes. -/
def firstParentMap (edges : List Edge) : List (String × String) :=
  edges.map (fun e => (e.target, e.source))

/-- Modelled from the spec: the lineage of a node — the node itself plus
its ancestors along the chosen-parent chain.  The store's lineage-walk
helper is not under src/ (only its callers are); the spec defines the
lineage as the chosen-parent chain upward from the node. -/
def lineageChain (edges : List Edge) (n : String) : List String :=
  walkChain (firstParentMap edges) (fun _ => false) (some n) []

/-- Modelled from the spec: `isNodeBlocked` / `isBlocked(nodeId)` — the
store function is not under src/ (only its callers in
`ContextMenu.tsx` and `SidePanel/index.tsx` are).  Per the spec it is
true iff the node itself, one of its chosen-parent-chain ancestors, or a
node it is such an ancestor of, is in the ActiveStreamSet
(`activeStreamIds`). -/
def isNodeBlocked (edges : List Edge) (activeStreamIds : List String)
    (n : String) : Bool :=
  activeStreamIds.any (fun g =>
    (lineageChain edges n).contains g || (lineageChain edges g).contains n)

/-- `a` is `n` itself or an ancestor of `n` along the chosen-parent
chain: reflexive-transitive closure of the chosen-parent step. -/
def ChosenAncestorOrSelf (edges : List Edge) (n a : String) : Prop :=
  Relation.ReflTransGen (fun x y => chosenParent edges x = some y) n a

/-- Modelled from the spec: `startGeneration(nodeId)` re-checks
`isBlocked`; if blocked it fails (`none`, the `ConcurrencyError(Blocked)`
path) with no mutation, otherwise it inserts the node id into the
ActiveStreamSet. -/
def startGeneration (edges : List Edge) (active : List String) (n : String) :
    Option (List String) :=
  if isNodeBlocked edges active n then none else some (n :: active)

/-- Modelled from the spec: `stopStreaming(nodeId)` / `endGeneration(nodeId)`
removes the node id from the ActiveStreamSet (the store's
`streamingNodeIds` set is not under src/, only its callers are). -/
def stopStreaming (active : List String) (n : String) : List String :=
  active.filter (fun x => x ≠ n)

/-- The payload of a `stream-chunk` event (`src/lib/tauri.ts`):
`{ node_id, chunk }`. -/
structure ChunkPayload where
  node_id : String
  chunk : String
deriving DecidableEq, Repr

/-- The `stream-chunk` listener set up by `sendPrompt(nodeId, …)` in
`src/lib/tauri.ts`, with `onChunk` being `appendToNode` on the same node
(as in `handleGenerate`): `if (event.payload.node_id === nodeId)
onChunk(event.payload.chunk)`. -/
def handleChunkEvent (nodeId : String) (s : GraphState) (e : ChunkPayload) :
    GraphState :=
  if e.node_id = nodeId then appendToNode s nodeId e.chunk else s

/-- Deliver a sequence of `stream-chunk` events (possibly interleaving
several nodes' streams) through `sendPrompt`'s listener for `nodeId`. -/
def runChunkEvents (nodeId : String) (s : GraphState)
    (events : List ChunkPayload) : GraphState :=
  events.foldl (handleChunkEvent nodeId) s

/-- The chunks the listener for `nodeId` passes to its callback. -/
def deliveredChunks (nodeId : String) (events : List ChunkPayload) :
    List String :=
  (events.filter (fun e => e.node_id = nodeId)).map (·.chunk)

/-- The message-preparation and validation step of `sendPrompt`
(`src/lib/tauri.ts`): filter out messages whose content trims to empty,
convert to `[role, content]` tuples, and throw
`'No valid messages to send'` when none survive; otherwise the backend is
invoked with the surviving tuples (`.ok`). -/
def sendPromptPrepare (messages : List CtxMsg) :
    Except String (List (Role × String)) :=
  let messageTuples :=
    (messages.filter (fun m => (jsTrim m.content).length > 0)).map
      (fun m => (m.role, m.content))
  if messageTuples.length = 0 then .error "No valid messages to send"
  else .ok messageTuples

/-- The settled result of one `sendPrompt` call as `handleGenerate`
observes it: the chunks streamed to the node before settling, and either
a normal resolution or a rejection with an error rendered as a string. -/
inductive GenOutcome where
  | success (chunks : List String)
  | failure (chunks : List String) (error : String)
deriving DecidableEq, Repr

/-- The chunks streamed before the outcome settled. -/
def GenOutcome.chunks : GenOutcome → List String
  | .success chunks => chunks
  | .failure chunks _ => chunks

/-- `handleGenerate` from `src/components/SidePanel/index.tsx`:
guard (`!previewNodeId || !data?.content.trim() || isBlocked`), create the
downstream agent node (which marks it streaming — modelled from the spec
as inserting into the ActiveStreamSet `active`), preview it, stream the
outcome's chunks via `appendToNode`, on rejection append an
`[Error: …]` marker, and in `finally` call `stopStreaming` on the agent
node.  The conversation context built from the preview node only feeds
the backend, whose behaviour the `outcome` parameter stands for. -/
def handleGenerate (s : GraphState) (active : List String)
    (agentNodeId provider : String) (model : Option String) (now : Nat)
    (outcome : GenOutcome) : GraphState × List String :=
  match s.previewNodeId with
  | none => (s, active)
  | some previewNodeId =>
    match mapGet s.nodeData previewNodeId with
    | none => (s, active)
    | some data =>
      if jsTrim data.content = "" then (s, active)
      else if isNodeBlocked s.edges active previewNodeId then (s, active)
      else
        let s1 := createAgentNodeDownstream s previewNodeId agentNodeId
          provider model now
        let active1 := agentNodeId :: active
        let s2 := { s1 with previewNodeId := some agentNodeId }
        let s3 := outcome.chunks.foldl
          (fun st chunk => appendToNode st agentNodeId chunk) s2
        let s4 := match outcome with
          | .success _ => s3
          | .failure _ err =>
            appendToNode s3 agentNodeId ("\n\n[Error: " ++ err ++ "]")
        (s4, stopStreaming active1 agentNodeId)

/-- Definition following the amended claim's wording: the source of the
LAST recorded incoming edge of a node. -/
def lastIncomingSource (edges : List Edge) (n : String) : Option String :=
  (edges.reverse.find? (fun e => e.target = n)).map (·.source)

/-- Parent lookup table keeping the last recorded incoming edge per
target (first binding of the reversed list). -/
def lastParentMap (edges : List Edge) : List (String × String) :=
  (edges.map (fun e => (e.target, e.source))).reverse

/-! ## Association-list (JS `Map`) lemmas -/

theorem mapGet_nil {α : Type} (k : String) : mapGet ([] : List (String × α)) k = none := rfl

theorem mapGet_cons {α : Type} (p : String × α) (m : List (String × α)) (k : String) :
    mapGet (p :: m) k = if p.1 = k then some p.2 else mapGet m k := by
  by_cases hp : p.1 = k <;> simp [mapGet, List.find?_cons, hp]

theorem mapGet_append {α : Type} (m₁ m₂ : List (String × α)) (k : String) :
    mapGet (m₁ ++ m₂) k =
      match mapGet m₁ k with
      | some v => some v
      | none => mapGet m₂ k := by
  induction m₁ with
  | nil => simp [mapGet_nil]
  | cons p m₁ ih =>
    by_cases hp : p.1 = k <;> simp [mapGet_cons, hp, ih]

theorem mapGet_eq_none_of_not_any {α : Type} (m : List (String × α)) (k : String)
    (hany : ¬ m.any (fun p => p.1 = k) = true) : mapGet m k = none := by
  unfold mapGet
  cases hf : m.find? (fun p => p.1 = k) with
  | none => rfl
  | some q =>
    exfalso
    apply hany
    rw [List.any_eq_true]
    exact ⟨q, List.mem_of_find?_eq_some hf, by simpa using List.find?_some hf⟩

theorem mapGet_overwrite_self {α : Type} (m : List (String × α)) (k : String) (v : α)
    (hany : m.any (fun p => p.1 = k) = true) :
    mapGet (m.map (fun p => if p.1 = k then (k, v) else p)) k = some v := by
  induction m with
  | nil => simp at hany
  | cons p m ih =>
    by_cases hp : p.1 = k
    · simp [mapGet_cons, hp]
    · have hany' : m.any (fun q => q.1 = k) = true := by simpa [hp] using hany
      simp [mapGet_cons, hp, ih hany']

theorem mapGet_overwrite_ne {α : Type} (m : List (String × α)) (k k' : String) (v : α)
    (hne : k' ≠ k) :
    mapGet (m.map (fun p => if p.1 = k then (k, v) else p)) k' = mapGet m k' := by
  induction m with
  | nil => rfl
  | cons p m ih =>
    by_cases hp : p.1 = k
    · have h1 : ¬ ((k : String) = k') := fun h => hne h.symm
      have h2 : ¬ (p.1 = k') := by rw [hp]; exact h1
      simp [mapGet_cons, hp, h1, h2, ih]
    · by_cases hp' : p.1 = k' <;> simp [mapGet_cons, hp, hp', ih, hne]

theorem mapGet_mapSet_self {α : Type} (m : List (String × α)) (k : String) (v : α) :
    mapGet (mapSet m k v) k = some v := by
  unfold mapSet
  by_cases hany : m.any (fun p => p.1 = k)
  · rw [if_pos hany]
    exact mapGet_overwrite_self m k v hany
  · rw [if_neg hany]
    rw [mapGet_append]
    rw [mapGet_eq_none_of_not_any m k hany]
    simp [mapGet_cons]

theorem mapGet_mapSet_ne {α : Type} (m : List (String × α)) (k k' : String) (v : α)
    (hne : k' ≠ k) : mapGet (mapSet m k v) k' = mapGet m k' := by
  unfold mapSet
  by_cases hany : m.any (fun p => p.1 = k)
  · rw [if_pos hany]
    exact mapGet_overwrite_ne m k k' v hne
  · rw [if_neg hany]
    rw [mapGet_append]
    cases hg : mapGet m k' with
    | some v' => rfl
    | none =>
      have h1 : ¬ ((k : String) = k') := fun h => hne h.symm
      simp [mapGet_cons, h1, mapGet_nil]

theorem mapDelete_cons_eq {α : Type} (p : String × α) (m : List (String × α))
    (k : String) (hp : p.1 = k) : mapDelete (p :: m) k = mapDelete m k := by
  simp [mapDelete, List.filter_cons, hp]

theorem mapDelete_cons_ne {α : Type} (p : String × α) (m : List (String × α))
    (k : String) (hp : ¬ p.1 = k) : mapDelete (p :: m) k = p :: mapDelete m k := by
  simp [mapDelete, List.filter_cons, hp]

theorem mapGet_mapDelete_self {α : Type} (m : List (String × α)) (k : String) :
    mapGet (mapDelete m k) k = none := by
  induction m with
  | nil => rfl
  | cons p m ih =>
    by_cases hp : p.1 = k
    · rw [mapDelete_cons_eq p m k hp]; exact ih
    · rw [mapDelete_cons_ne p m k hp, mapGet_cons, if_neg hp]; exact ih

theorem mapGet_mapDelete_ne {α : Type} (m : List (String × α)) (k k' : String)
    (hne : k' ≠ k) : mapGet (mapDelete m k) k' = mapGet m k' := by
  induction m with
  | nil => rfl
  | cons p m ih =>
    by_cases hp : p.1 = k
    · have h2 : ¬ (p.1 = k') := by rw [hp]; exact fun h => hne h.symm
      rw [mapDelete_cons_eq p m k hp, mapGet_cons, if_neg h2]; exact ih
    · rw [mapDelete_cons_ne p m k hp, mapGet_cons, mapGet_cons, ih]

/-! ## Parent-map characterizations -/

theorem find?_append {α : Type} (p : α → Bool) (l₁ l₂ : List α) :
    (l₁ ++ l₂).find? p =
      match l₁.find? p with
      | some a => some a
      | none => l₂.find? p := by
  induction l₁ with
  | nil => simp
  | cons a l₁ ih =>
    by_cases ha : p a <;> simp [List.find?_cons, ha, ih]

theorem mapGet_map_target_source (l : List Edge) (n : String) :
    mapGet (l.map (fun e => (e.target, e.source))) n =
      (l.find? (fun e => e.target = n)).map (·.source) := by
  induction l with
  | nil => rfl
  | cons e l ih =>
    by_cases he : e.target = n <;>
      simp [mapGet_cons, List.find?_cons, he, ih]

theorem mapGet_firstParentMap (edges : List Edge) (n : String) :
    mapGet (firstParentMap edges) n = chosenParent edges n := by
  unfold firstParentMap chosenParent
  exact mapGet_map_target_source edges n

theorem mapGet_lastParentMap (edges : List Edge) (n : String) :
    mapGet (lastParentMap edges) n = lastIncomingSource edges n := by
  unfold lastParentMap lastIncomingSource
  rw [← List.map_reverse]
  exact mapGet_map_target_source edges.reverse n

theorem foldl_mapSet_get (edges : List Edge) (m : List (String × String))
    (n : String) :
    mapGet (edges.foldl (fun m e => mapSet m e.target e.source) m) n =
      match edges.reverse.find? (fun e => e.target = n) with
      | some e => some e.source
      | none => mapGet m n := by
  induction edges generalizing m with
  | nil => simp
  | cons e es ih =>
    simp only [List.foldl_cons, List.reverse_cons]
    rw [ih, find?_append]
    cases hf : es.reverse.find? (fun e => e.target = n) with
    | some e' => rfl
    | none =>
      by_cases he : e.target = n
      · subst he
        simp [List.find?_cons, mapGet_mapSet_self]
      · simp [List.find?_cons, he,
          mapGet_mapSet_ne m e.target n e.source (fun h => he h.symm)]

theorem mapGet_buildParentMap (edges : List Edge) (n : String) :
    mapGet (buildParentMap edges) n = lastIncomingSource edges n := by
  unfold buildParentMap lastIncomingSource
  rw [foldl_mapSet_get]
  cases hf : edges.reverse.find? (fun e => e.target = n) <;> simp [hf, mapGet_nil]

/-! ## Walk lemmas -/

theorem walkChain_none (pmap : List (String × String)) (stop : String → Bool)
    (vis : List String) : walkChain pmap stop none vis = [] := by
  rw [walkChain]

theorem walkChain_stop (pmap : List (String × String)) (stop : String → Bool)
    (c : String) (vis : List String) (hstop : stop c = true) :
    walkChain pmap stop (some c) vis = [] := by
  rw [walkChain]
  simp [hstop]

theorem walkChain_visited (pmap : List (String × String)) (stop : String → Bool)
    (c : String) (vis : List String) (hstop : stop c = false) (hvis : c ∈ vis) :
    walkChain pmap stop (some c) vis = [] := by
  rw [walkChain]
  simp [hstop, hvis]

theorem walkChain_go (pmap : List (String × String)) (stop : String → Bool)
    (c : String) (vis : List String) (hstop : stop c = false) (hvis : c ∉ vis) :
    walkChain pmap stop (some c) vis =
      c :: walkChain pmap stop (mapGet pmap c) (c :: vis) := by
  rw [walkChain]
  simp [hstop, hvis]

theorem mem_walkChain_not_visited (pmap : List (String × String))
    (stop : String → Bool) (cur : Option String) (vis : List String) :
    ∀ x ∈ walkChain pmap stop cur vis, x ∉ vis := by
  induction cur, vis using walkChain.induct pmap stop with
  | case1 vis => simp [walkChain_none]
  | case2 c vis hstop =>
    simp [walkChain_stop pmap stop c vis hstop]
  | case3 c vis hstop hvis =>
    simp [walkChain_visited pmap stop c vis (by simpa using hstop) hvis]
  | case4 c vis hstop hvis ih =>
    intro x hx
    rw [walkChain_go pmap stop c vis (by simpa using hstop) hvis] at hx
    cases hx with
    | head => exact hvis
    | tail _ h =>
      have := ih x h
      simp only [List.mem_cons] at this
      exact fun hxv => this (Or.inr hxv)

theorem walkChain_nodup (pmap : List (String × String)) (stop : String → Bool)
    (cur : Option String) (vis : List String) :
    (walkChain pmap stop cur vis).Nodup := by
  induction cur, vis using walkChain.induct pmap stop with
  | case1 vis => simp [walkChain_none]
  | case2 c vis hstop => simp [walkChain_stop pmap stop c vis hstop]
  | case3 c vis hstop hvis =>
    simp [walkChain_visited pmap stop c vis (by simpa using hstop) hvis]
  | case4 c vis hstop hvis ih =>
    rw [walkChain_go pmap stop c vis (by simpa using hstop) hvis]
    refine List.nodup_cons.mpr ⟨?_, ih⟩
    intro hc
    have := mem_walkChain_not_visited pmap stop (mapGet pmap c) (c :: vis) c hc
    simp at this

theorem mem_walkChain_sources (pmap : List (String × String))
    (stop : String → Bool) (cur : Option String) (vis : List String) :
    ∀ x ∈ walkChain pmap stop cur vis,
      (∃ c, cur = some c ∧ x = c) ∨ x ∈ pmap.map Prod.snd := by
  induction cur, vis using walkChain.induct pmap stop with
  | case1 vis => simp [walkChain_none]
  | case2 c vis hstop => simp [walkChain_stop pmap stop c vis hstop]
  | case3 c vis hstop hvis =>
    simp [walkChain_visited pmap stop c vis (by simpa using hstop) hvis]
  | case4 c vis hstop hvis ih =>
    intro x hx
    rw [walkChain_go pmap stop c vis (by simpa using hstop) hvis] at hx
    cases hx with
    | head => exact Or.inl ⟨c, rfl, rfl⟩
    | tail _ h =>
      cases ih x h with
      | inl hex =>
        obtain ⟨c', hc', hx'⟩ := hex
        exact Or.inr (hx' ▸ mapGet_mem_snd hc')
      | inr hmem => exact Or.inr hmem

theorem walkChain_length_le (pmap : List (String × String))
    (stop : String → Bool) (n : String) (vis : List String) :
    (walkChain pmap stop (some n) vis).length ≤ pmap.length + 1 := by
  classical
  set l := walkChain pmap stop (some n) vis with hl
  have hnd : l.Nodup := walkChain_nodup pmap stop (some n) vis
  have hsub : l.toFinset ⊆ insert n (pmap.map Prod.snd).toFinset := by
    intro x hx
    rw [List.mem_toFinset] at hx
    cases mem_walkChain_sources pmap stop (some n) vis x hx with
    | inl hex =>
      obtain ⟨c, hc, hx'⟩ := hex
      cases hc
      exact hx' ▸ Finset.mem_insert_self x _
    | inr hmem =>
      exact Finset.mem_insert_of_mem (List.mem_toFinset.mpr hmem)
  have h1 : l.length = l.toFinset.card := (List.toFinset_card_of_nodup hnd).symm
  have h2 : l.toFinset.card ≤ (insert n (pmap.map Prod.snd).toFinset).card :=
    Finset.card_le_card hsub
  have h3 : (insert n (pmap.map Prod.snd).toFinset).card ≤
      (pmap.map Prod.snd).toFinset.card + 1 := Finset.card_insert_le _ _
  have h4 : (pmap.map Prod.snd).toFinset.card ≤ (pmap.map Prod.snd).length :=
    (pmap.map Prod.snd).toFinset_card_le
  have h5 : (pmap.map Prod.snd).length = pmap.length := List.length_map _ _
  omega

/-! ## Reachability along a parent map -/

/-- One chosen-parent step in a parent lookup table. -/
def PStep (pmap : List (String × String)) (x y : String) : Prop :=
  mapGet pmap x = some y

theorem reaches_of_mem_walkChain (pmap : List (String × String))
    (stop : String → Bool) (cur : Option String) (vis : List String) :
    ∀ x ∈ walkChain pmap stop cur vis, ∀ c, cur = some c →
      Relation.ReflTransGen (PStep pmap) c x := by
  induction cur, vis using walkChain.induct pmap stop with
  | case1 vis => simp [walkChain_none]
  | case2 c vis hstop => simp [walkChain_stop pmap stop c vis hstop]
  | case3 c vis hstop hvis =>
    simp [walkChain_visited pmap stop c vis (by simpa using hstop) hvis]
  | case4 c vis hstop hvis ih =>
    intro x hx c' hc'
    cases hc'
    rw [walkChain_go pmap stop c vis (by simpa using hstop) hvis] at hx
    cases hx with
    | head => exact Relation.ReflTransGen.refl
    | tail _ h =>
      cases hg : mapGet pmap c with
      | none =>
        rw [hg, walkChain_none] at h
        cases h
      | some p =>
        exact Relation.ReflTransGen.head hg (ih x h p hg)

theorem mem_of_reaches_of_closed (pmap : List (String × String))
    (vis : List String) (hclosed : ∀ v ∈ vis, ∀ w, PStep pmap v w → w ∈ vis)
    {c a : String} (hc : c ∈ vis)
    (hr : Relation.ReflTransGen (PStep pmap) c a) : a ∈ vis := by
  induction hr with
  | refl => exact hc
  | tail _ hstep ih => exact hclosed _ ih _ hstep

theorem mem_walkChain_of_reaches (pmap : List (String × String)) :
    ∀ (cur : Option String) (vis : List String) (c a : String),
      cur = some c →
      (∀ v ∈ vis, ∀ w, PStep pmap v w → w ∈ vis ∨ w = c) →
      Relation.ReflTransGen (PStep pmap) c a →
      a ∉ vis →
      a ∈ walkChain pmap (fun _ => false) cur vis := by
  intro cur vis
  induction cur, vis using walkChain.induct pmap (fun _ => false) with
  | case1 vis =>
    intro c a hc
    cases hc
  | case2 c vis hstop => simp at hstop
  | case3 c vis hstop hvis =>
    intro c' a hc' hinv hr ha
    cases hc'
    exfalso
    have hclosed : ∀ v ∈ vis, ∀ w, PStep pmap v w → w ∈ vis := by
      intro v hv w hw
      cases hinv v hv w hw with
      | inl h => exact h
      | inr h => exact h ▸ hvis
    exact ha (mem_of_reaches_of_closed pmap vis hclosed hvis hr)
  | case4 c vis hstop hvis ih =>
    intro c' a hc' hinv hr ha
    cases hc'
    rw [walkChain_go pmap (fun _ => false) c vis rfl hvis]
    by_cases hac : a = c
    · exact hac ▸ List.mem_cons_self a _
    · rcases (Relation.ReflTransGen.cases_head hr) with heq | ⟨b, hstep, hr'⟩
      · exact absurd heq.symm hac
      · apply List.mem_cons_of_mem
        refine ih b a hstep ?_ hr' ?_
        · intro v hv w hw
          cases List.mem_cons.mp hv with
          | inl hvc =>
            subst hvc
            exact Or.inr (Option.some.inj (hw.symm.trans hstep))
          | inr hvv =>
            cases hinv v hvv w hw with
            | inl h => exact Or.inl (List.mem_cons_of_mem _ h)
            | inr h => exact Or.inl (h ▸ List.mem_cons_self c vis)
        · intro hav
          cases List.mem_cons.mp hav with
          | inl h => exact hac h
          | inr h => exact ha h

/-- Membership in the spec-modelled lineage walk is exactly
chosen-ancestor-or-self reachability. -/
theorem mem_lineageChain_iff (edges : List Edge) (n a : String) :
    a ∈ lineageChain edges n ↔ ChosenAncestorOrSelf edges n a := by
  have hrel : PStep (firstParentMap edges) = fun x y => chosenParent edges x = some y := by
    funext x y
    unfold PStep
    rw [mapGet_firstParentMap]
  constructor
  · intro h
    have := reaches_of_mem_walkChain (firstParentMap edges) (fun _ => false)
      (some n) [] a h n rfl
    unfold ChosenAncestorOrSelf
    rw [← hrel]
    exact this
  · intro h
    unfold ChosenAncestorOrSelf at h
    rw [← hrel] at h
    exact mem_walkChain_of_reaches (firstParentMap edges) (some n) [] n a rfl
      (by simp) h (by simp)

/-! ## Context-loop lemmas -/

theorem buildCCLoop_none (pmap : List (String × String))
    (ndata : List (String × MessageNodeData)) (vis : List String)
    (msgs : List CtxMsg) : buildCCLoop pmap ndata none vis msgs = msgs := by
  rw [buildCCLoop]

theorem buildCCLoop_empty (pmap : List (String × String))
    (ndata : List (String × MessageNodeData)) (c : String) (vis : List String)
    (msgs : List CtxMsg) (hc : c = "") :
    buildCCLoop pmap ndata (some c) vis msgs = msgs := by
  rw [buildCCLoop]
  simp [hc]

theorem buildCCLoop_visited (pmap : List (String × String))
    (ndata : List (String × MessageNodeData)) (c : String) (vis : List String)
    (msgs : List CtxMsg) (hc : ¬ c = "") (hvis : c ∈ vis) :
    buildCCLoop pmap ndata (some c) vis msgs = msgs := by
  rw [buildCCLoop]
  simp [hc, hvis]

theorem buildCCLoop_go (pmap : List (String × String))
    (ndata : List (String × MessageNodeData)) (c : String) (vis : List String)
    (msgs : List CtxMsg) (hc : ¬ c = "") (hvis : c ∉ vis) :
    buildCCLoop pmap ndata (some c) vis msgs =
      buildCCLoop pmap ndata (mapGet pmap c) (c :: vis)
        (match ctxMsgOf ndata c with
         | some msg => msg :: msgs
         | none => msgs) := by
  rw [buildCCLoop]
  simp [hc, hvis]

/-- The context loop is the walk's visited chain, reversed (because each
message is `unshift`ed) and filtered through the per-node message test. -/
theorem buildCCLoop_eq_chain (pmap : List (String × String))
    (ndata : List (String × MessageNodeData)) (cur : Option String)
    (vis : List String) (msgs : List CtxMsg) :
    buildCCLoop pmap ndata cur vis msgs =
      ((walkChain pmap (fun c => c = "") cur vis).reverse.filterMap
        (ctxMsgOf ndata)) ++ msgs := by
  induction cur, vis, msgs using buildCCLoop.induct pmap ndata with
  | case1 vis msgs =>
    rw [buildCCLoop_none, walkChain_none]
    simp
  | case2 vis msgs =>
    rw [buildCCLoop_empty pmap ndata "" vis msgs rfl,
      walkChain_stop pmap _ "" vis (by simp)]
    simp
  | case3 c vis msgs hc hvis =>
    rw [buildCCLoop_visited pmap ndata c vis msgs hc hvis,
      walkChain_visited pmap _ c vis (by simpa using hc) hvis]
    simp
  | case4 c vis msgs hc hvis ih =>
    rw [buildCCLoop_go pmap ndata c vis msgs hc hvis,
      walkChain_go pmap _ c vis (by simpa using hc) hvis]
    rw [ih]
    rw [List.reverse_cons, List.filterMap_append]
    cases hm : ctxMsgOf ndata c <;> simp [hm]

/-- The context loop only consults the parent map through `Map.get`, so
two lookup-equivalent maps drive it identically. -/
theorem buildCCLoop_congr (pm₁ pm₂ : List (String × String))
    (ndata : List (String × MessageNodeData))
    (h : ∀ k, mapGet pm₁ k = mapGet pm₂ k) (cur : Option String)
    (vis : List String) (msgs : List CtxMsg) :
    buildCCLoop pm₁ ndata cur vis msgs = buildCCLoop pm₂ ndata cur vis msgs := by
  induction cur, vis, msgs using buildCCLoop.induct pm₁ ndata with
  | case1 vis msgs =>
    rw [buildCCLoop_none, buildCCLoop_none]
  | case2 vis msgs =>
    rw [buildCCLoop_empty pm₁ ndata "" vis msgs rfl,
      buildCCLoop_empty pm₂ ndata "" vis msgs rfl]
  | case3 c vis msgs hc hvis =>
    rw [buildCCLoop_visited pm₁ ndata c vis msgs hc hvis,
      buildCCLoop_visited pm₂ ndata c vis msgs hc hvis]
  | case4 c vis msgs hc hvis ih =>
    rw [buildCCLoop_go pm₁ ndata c vis msgs hc hvis,
      buildCCLoop_go pm₂ ndata c vis msgs hc hvis]
    rw [← h c]
    exact ih

/-! ## appendToNode and jsTrim lemmas -/

theorem appendToNode_miss (s : GraphState) (n c : String)
    (h : mapGet s.nodeData n = none) : appendToNode s n c = s := by
  unfold appendToNode
  rw [h]

theorem appendToNode_get_self (s : GraphState) (n c : String)
    (d : MessageNodeData) (h : mapGet s.nodeData n = some d) :
    mapGet (appendToNode s n c).nodeData n =
      some { d with content := d.content ++ c } := by
  unfold appendToNode
  rw [h]
  exact mapGet_mapSet_self _ _ _

theorem appendToNode_get_other (s : GraphState) (n c m : String)
    (hne : m ≠ n) :
    mapGet (appendToNode s n c).nodeData m = mapGet s.nodeData m := by
  unfold appendToNode
  cases h : mapGet s.nodeData n with
  | none => rfl
  | some d => exact mapGet_mapSet_ne _ _ _ _ hne

theorem appendToNode_edges (s : GraphState) (n c : String) :
    (appendToNode s n c).edges = s.edges := by
  unfold appendToNode
  cases h : mapGet s.nodeData n <;> rfl

theorem appendToNode_previewNodeId (s : GraphState) (n c : String) :
    (appendToNode s n c).previewNodeId = s.previewNodeId := by
  unfold appendToNode
  cases h : mapGet s.nodeData n <;> rfl

theorem appendToNode_nodes_other (s : GraphState) (n c : String)
    (fn : FlowNode) (hfn : fn ∈ s.nodes) (hne : fn.id ≠ n) :
    fn ∈ (appendToNode s n c).nodes := by
  unfold appendToNode
  cases h : mapGet s.nodeData n with
  | none => exact hfn
  | some d =>
    simp only [List.mem_map]
    exact ⟨fn, hfn, by rw [if_neg hne]⟩

theorem foldl_appendToNode_get (chunks : List String) (s : GraphState)
    (n : String) (d : MessageNodeData) (h : mapGet s.nodeData n = some d) :
    mapGet ((chunks.foldl (fun st c => appendToNode st n c) s)).nodeData n =
      some { d with content := chunks.foldl (fun acc c => acc ++ c) d.content } := by
  induction chunks generalizing s d with
  | nil => simpa using h
  | cons c cs ih =>
    simp only [List.foldl_cons]
    exact ih (appendToNode s n c) { d with content := d.content ++ c }
      (appendToNode_get_self s n c d h)

theorem foldl_string_append (cs : List String) (acc : String) :
    cs.foldl (fun a c => a ++ c) acc = acc ++ String.join cs := by
  induction cs generalizing acc with
  | nil => simp [String.join]
  | cons c cs ih =>
    simp only [List.foldl_cons]
    rw [ih (acc ++ c)]
    have hjoin : String.join (c :: cs) = c ++ String.join cs := by
      show List.foldl (fun a b => a ++ b) "" (c :: cs) = c ++ String.join cs
      rw [List.foldl_cons]
      rw [show ("" ++ c : String) = c from by simp]
      exact ih c
    rw [hjoin, String.append_assoc]

theorem jsTrim_eq_empty_iff (s : String) :
    jsTrim s = "" ↔ s.data.all isJsWhitespace := by
  unfold jsTrim
  have hempty : ∀ l : List Char, (⟨l⟩ : String) = "" ↔ l = [] := by
    intro l
    constructor
    · intro h
      have : (⟨l⟩ : String).data = ("" : String).data := by rw [h]
      simpa using this
    · intro h
      rw [h]
  rw [hempty]
  rw [List.reverse_eq_nil_iff]
  rw [List.dropWhile_eq_nil_iff]
  constructor
  · intro h
    rw [List.all_eq_true]
    intro x hx
    by_contra hpx
    -- the first non-whitespace character survives both trims
    have hne : s.data.dropWhile isJsWhitespace ≠ [] := by
      intro hnil
      rw [List.dropWhile_eq_nil_iff] at hnil
      exact hpx (hnil x hx)
    obtain ⟨a, l', hal⟩ := List.exists_cons_of_ne_nil hne
    have hpa : ¬ isJsWhitespace a = true := by
      have := List.head?_dropWhile_not isJsWhitespace s.data
      rw [hal] at this
      simpa using this
    have ha : a ∈ (s.data.dropWhile isJsWhitespace).reverse := by
      rw [hal]
      simp
    exact hpa (h a ha)
  · intro h x hx
    rw [List.all_eq_true] at h
    have hx' : x ∈ s.data.dropWhile isJsWhitespace := List.mem_reverse.mp hx
    exact h x ((List.dropWhile_sublist isJsWhitespace).subset hx')

theorem jsTrim_length_pos_iff (s : String) :
    ((jsTrim s).length > 0) ↔ ¬ s.data.all isJsWhitespace := by
  rw [← jsTrim_eq_empty_iff]
  constructor
  · intro h hempty
    rw [hempty] at h
    exact absurd h (by decide)
  · intro h
    by_contra hlen
    apply h
    have hz : (jsTrim s).length = 0 := Nat.eq_zero_of_not_pos hlen
    have hdata : (jsTrim s).data = [] := List.length_eq_zero.mp hz
    have heta : jsTrim s = (⟨(jsTrim s).data⟩ : String) := rfl
    rw [heta, hdata]

theorem string_join_cons (c : String) (cs : List String) :
    String.join (c :: cs) = c ++ String.join cs := by
  show List.foldl (fun a b => a ++ b) "" (c :: cs) = c ++ String.join cs
  rw [List.foldl_cons]
  rw [show ("" ++ c : String) = c from by simp]
  exact foldl_string_append cs c

theorem mapSet_length_le {α : Type} (m : List (String × α)) (k : String) (v : α) :
    (mapSet m k v).length ≤ m.length + 1 := by
  unfold mapSet
  by_cases hany : m.any (fun p => p.1 = k)
  · rw [if_pos hany, List.length_map]
    omega
  · rw [if_neg hany, List.length_append]
    simp

theorem buildParentMap_length_le (edges : List Edge) :
    (buildParentMap edges).length ≤ edges.length := by
  unfold buildParentMap
  have hgen : ∀ (es : List Edge) (m : List (String × String)),
      (es.foldl (fun m e => mapSet m e.target e.source) m).length ≤
        m.length + es.length := by
    intro es
    induction es with
    | nil => intro m; simp
    | cons e es ih =>
      intro m
      rw [List.foldl_cons]
      calc (es.foldl (fun m e => mapSet m e.target e.source)
              (mapSet m e.target e.source)).length
          ≤ (mapSet m e.target e.source).length + es.length := ih _
        _ ≤ m.length + 1 + es.length :=
            Nat.add_le_add_right (mapSet_length_le m e.target e.source) _
        _ = m.length + (e :: es).length := by simp [List.length_cons]; omega
  simpa using hgen edges []

theorem self_mem_lineageChain (edges : List Edge) (n : String) :
    n ∈ lineageChain edges n := by
  unfold lineageChain
  rw [walkChain_go _ _ n [] rfl (by simp)]
  exact List.mem_cons_self n _

/-- The spec-level reading of `isNodeBlocked`, shared by the claim
theorems: blocked iff some generating node lies on the node's
chosen-parent ancestor chain or has the node on its own chain. -/
theorem isNodeBlocked_iff_spec (edges : List Edge) (active : List String)
    (n : String) :
    isNodeBlocked edges active n = true ↔
      ∃ g ∈ active, ChosenAncestorOrSelf edges n g ∨
        ChosenAncestorOrSelf edges g n := by
  unfold isNodeBlocked
  rw [List.any_eq_true]
  constructor
  · rintro ⟨g, hg, hor⟩
    rw [Bool.or_eq_true] at hor
    refine ⟨g, hg, ?_⟩
    cases hor with
    | inl h =>
      exact Or.inl ((mem_lineageChain_iff edges n g).mp (by simpa using h))
    | inr h =>
      exact Or.inr ((mem_lineageChain_iff edges g n).mp (by simpa using h))
  · rintro ⟨g, hg, hor⟩
    refine ⟨g, hg, ?_⟩
    rw [Bool.or_eq_true]
    cases hor with
    | inl h =>
      exact Or.inl (by simpa using (mem_lineageChain_iff edges n g).mpr h)
    | inr h =>
      exact Or.inr (by simpa using (mem_lineageChain_iff edges g n).mpr h)

theorem lineageChain_nil (n : String) : lineageChain [] n = [n] := by
  unfold lineageChain
  rw [walkChain_go _ _ n [] rfl (by simp)]
  rw [show mapGet (firstParentMap []) n = none from rfl, walkChain_none]

/-! ## Claim theorems -/

/-- C1: for every node `n`, `isNodeBlocked(n)` returns true if and only
if `n` itself, some ancestor of `n` along the chosen-parent chain, or
some descendant of `n` along that chain is in the set of generating
nodes; a node sharing no ancestor/descendant path with a generating node
is not blocked.  (`ChosenAncestorOrSelf edges n g` covers `g = n` via
reflexivity, a generating ancestor of `n` via `n ⟶* g`, and a generating
descendant of `n` via `g ⟶* n`.) -/
theorem C1_isNodeBlocked_iff_lineage (edges : List Edge)
    (active : List String) (n : String) :
    isNodeBlocked edges active n = true ↔
      ∃ g ∈ active, ChosenAncestorOrSelf edges n g ∨
        ChosenAncestorOrSelf edges g n :=
  isNodeBlocked_iff_spec edges active n

/-- C9: `buildConversationContext` terminates on every finite graph (it
is a total function of the embedded state, with the visited chain bounded
by the edge count even when the parent relation is cyclic), visits each
chain node at most once (the chain is duplicate-free), and returns the
visited nodes' nonempty messages ordered from the furthest ancestor down
to the queried node (the reversal of the visit order). -/
theorem C9_buildConversationContext_chain (s : GraphState) (n : String) :
    buildConversationContext s n =
      (walkChain (buildParentMap s.edges) (fun c => c = "") (some n)
        []).reverse.filterMap (ctxMsgOf s.nodeData) ∧
    (walkChain (buildParentMap s.edges) (fun c => c = "") (some n) []).Nodup ∧
    (walkChain (buildParentMap s.edges) (fun c => c = "") (some n) []).length ≤
      s.edges.length + 1 := by
  refine ⟨?_, walkChain_nodup _ _ _ _, ?_⟩
  · unfold buildConversationContext
    rw [buildCCLoop_eq_chain]
    simp
  · have h1 := walkChain_length_le (buildParentMap s.edges) (fun c => c = "") n []
    have h2 := buildParentMap_length_le s.edges
    omega

/-- Concrete two-parent graph refuting C2 as stated: `B` has two incoming
edges, `A→B` recorded first and `C→B` recorded second; all three nodes
carry nonempty content. -/
def c2State : GraphState :=
  { nodes := [],
    edges := [⟨"e1", "A", "B"⟩, ⟨"e2", "C", "B"⟩],
    nodeData :=
      [("A", { id := "A", role := .user, content := "alpha", timestamp := 0 }),
       ("B", { id := "B", role := .user, content := "beta", timestamp := 0 }),
       ("C", { id := "C", role := .user, content := "gamma", timestamp := 0 })],
    selectedNodeId := none, streamingNodeId := none,
    editingNodeId := none, previewNodeId := none }

/-- C2 counterexample: the first recorded incoming edge of `B` is `A→B`
(`chosenParent` = `A`), so the claim's context for `B` would be
`[alpha, beta]`; the code's `parentMap` is built with overwriting
`Map.set`, so `buildConversationContext` follows the later-recorded edge
`C→B` and returns `[gamma, beta]`, never consulting `A`. -/
theorem C2_counterexample_last_edge_wins :
    chosenParent c2State.edges "B" = some "A" ∧
    buildConversationContext c2State "B" =
      [⟨Role.user, "gamma"⟩, ⟨Role.user, "beta"⟩] ∧
    (⟨Role.user, "alpha"⟩ : CtxMsg) ∉ buildConversationContext c2State "B" := by
  have hpm : buildParentMap c2State.edges = [("B", "C")] := by rfl
  have hb : buildConversationContext c2State "B" =
      [⟨Role.user, "gamma"⟩, ⟨Role.user, "beta"⟩] := by
    unfold buildConversationContext
    rw [hpm]
    rw [buildCCLoop_go _ _ "B" [] [] (by decide) (by simp)]
    rw [show mapGet [("B", "C")] "B" = some "C" from rfl]
    rw [show ctxMsgOf c2State.nodeData "B" = some ⟨Role.user, "beta"⟩ from rfl]
    rw [buildCCLoop_go _ _ "C" ["B"] _ (by decide) (by simp)]
    rw [show mapGet [("B", "C")] "C" = none from rfl]
    rw [show ctxMsgOf c2State.nodeData "C" = some ⟨Role.user, "gamma"⟩ from rfl]
    rw [buildCCLoop_none]
  exact ⟨rfl, hb, by rw [hb]; decide⟩

/-- C2 (amended): for every node, `buildConversationContext` assembles
the prompt context by following the node's LAST recorded incoming edge;
earlier-recorded incoming edges are ignored for context assembly.  The
loop run on the source's overwriting parent map coincides with the loop
run on the last-edge parent map, whose lookup is exactly
`lastIncomingSource`. -/
theorem C2_amended_context_follows_last_edge (s : GraphState) (n : String) :
    buildConversationContext s n =
      buildCCLoop (lastParentMap s.edges) s.nodeData (some n) [] [] ∧
    ∀ m, mapGet (lastParentMap s.edges) m = lastIncomingSource s.edges m := by
  constructor
  · unfold buildConversationContext
    exact buildCCLoop_congr _ _ _
      (fun k => by rw [mapGet_buildParentMap, mapGet_lastParentMap]) _ _ _
  · intro m
    exact mapGet_lastParentMap s.edges m

/-- C10: after `deleteNode(n)` the graph holds no dangling reference to
`n`: `n` is gone from the node list and the `nodeData` map, every edge
touching `n` is gone (so, provided every edge joined existing nodes
beforehand, every remaining edge joins two surviving nodes), and each of
the selection/editing/preview pointers is nulled exactly when it pointed
at `n`. -/
theorem C10_deleteNode_no_dangling (s : GraphState) (n : String)
    (hclosed : ∀ e ∈ s.edges,
      e.source ∈ s.nodes.map FlowNode.id ∧ e.target ∈ s.nodes.map FlowNode.id) :
    (∀ fn ∈ (deleteNode s n).nodes, fn.id ≠ n) ∧
    mapGet (deleteNode s n).nodeData n = none ∧
    (∀ e ∈ (deleteNode s n).edges, e.source ≠ n ∧ e.target ≠ n ∧
      e.source ∈ (deleteNode s n).nodes.map FlowNode.id ∧
      e.target ∈ (deleteNode s n).nodes.map FlowNode.id) ∧
    (deleteNode s n).selectedNodeId ≠ some n ∧
    (deleteNode s n).editingNodeId ≠ some n ∧
    (deleteNode s n).previewNodeId ≠ some n ∧
    (deleteNode s n).selectedNodeId =
      (if s.selectedNodeId = some n then none else s.selectedNodeId) ∧
    (deleteNode s n).editingNodeId =
      (if s.editingNodeId = some n then none else s.editingNodeId) ∧
    (deleteNode s n).previewNodeId =
      (if s.previewNodeId = some n then none else s.previewNodeId) := by
  have hnodes : ∀ fn ∈ (deleteNode s n).nodes, fn.id ≠ n := by
    intro fn hfn
    unfold deleteNode at hfn
    simp only [List.mem_filter] at hfn
    simpa using hfn.2
  have hmem_nodes : ∀ (m : String), m ≠ n → m ∈ s.nodes.map FlowNode.id →
      m ∈ (deleteNode s n).nodes.map FlowNode.id := by
    intro m hm hmem
    rw [List.mem_map] at hmem ⊢
    obtain ⟨fn, hfn, hid⟩ := hmem
    refine ⟨fn, ?_, hid⟩
    unfold deleteNode
    simp only [List.mem_filter]
    exact ⟨hfn, by simpa using hid ▸ hm⟩
  refine ⟨hnodes, mapGet_mapDelete_self s.nodeData n, ?_, ?_, ?_, ?_, rfl, rfl, rfl⟩
  · intro e he
    have hmem : e ∈ s.edges ∧ (e.source ≠ n ∧ e.target ≠ n) := by
      unfold deleteNode at he
      simp only [List.mem_filter] at he
      refine ⟨he.1, ?_⟩
      have := he.2
      simp only [Bool.and_eq_true, decide_eq_true_eq] at this
      exact this
    have he' := hmem.1
    have hs := hmem.2.1
    have ht := hmem.2.2
    obtain ⟨hsrc, htgt⟩ := hclosed e he'
    exact ⟨hs, ht, hmem_nodes e.source hs hsrc, hmem_nodes e.target ht htgt⟩
  · unfold deleteNode
    by_cases hsel : s.selectedNodeId = some n <;> simp [hsel]
  · unfold deleteNode
    by_cases hed : s.editingNodeId = some n <;> simp [hed]
  · unfold deleteNode
    by_cases hpr : s.previewNodeId = some n <;> simp [hpr]

/-- Node data for the C10 witness node `X`. -/
def mdX : MessageNodeData :=
  { id := "X", role := .user, content := "x", timestamp := 0 }

/-- Flow node for the C10 witness node `X`. -/
def fnX : FlowNode :=
  { id := "X", nodeType := .user, position := (0, 0),
    nodeData := mdX, isSelected := true }

/-- Concrete state for the C10 witness: one node `X` with a self-loop
edge and every UI pointer aimed at `X`. -/
def c10State : GraphState :=
  { nodes := [fnX],
    edges := [⟨"e", "X", "X"⟩],
    nodeData := [("X", mdX)],
    selectedNodeId := some "X", streamingNodeId := none,
    editingNodeId := some "X", previewNodeId := some "X" }

/-- Witness for C10 at the concrete state. -/
theorem C10_deleteNode_no_dangling_witness :
    (∀ e ∈ c10State.edges,
      e.source ∈ c10State.nodes.map FlowNode.id ∧
      e.target ∈ c10State.nodes.map FlowNode.id) ∧
    ((∀ fn ∈ (deleteNode c10State "X").nodes, fn.id ≠ "X") ∧
    mapGet (deleteNode c10State "X").nodeData "X" = none ∧
    (∀ e ∈ (deleteNode c10State "X").edges, e.source ≠ "X" ∧ e.target ≠ "X" ∧
      e.source ∈ (deleteNode c10State "X").nodes.map FlowNode.id ∧
      e.target ∈ (deleteNode c10State "X").nodes.map FlowNode.id) ∧
    (deleteNode c10State "X").selectedNodeId ≠ some "X" ∧
    (deleteNode c10State "X").editingNodeId ≠ some "X" ∧
    (deleteNode c10State "X").previewNodeId ≠ some "X" ∧
    (deleteNode c10State "X").selectedNodeId =
      (if c10State.selectedNodeId = some "X" then none
       else c10State.selectedNodeId) ∧
    (deleteNode c10State "X").editingNodeId =
      (if c10State.editingNodeId = some "X" then none
       else c10State.editingNodeId) ∧
    (deleteNode c10State "X").previewNodeId =
      (if c10State.previewNodeId = some "X" then none
       else c10State.previewNodeId)) :=
  ⟨by decide, C10_deleteNode_no_dangling c10State "X" (by decide)⟩

/-- C6: `appendToNode(n, c)` is append-only and framed: the node's new
content is its old content concatenated with the chunk, every other field
of the node's data (`id`, `role`, `timestamp`, `provider`, `model`,
`summary`) is unchanged, the data of every other node is unchanged (both
in the `nodeData` map and in the flow-node list), and the edge list is
unchanged. -/
theorem C6_appendToNode_frame (s : GraphState) (n chunk : String)
    (d : MessageNodeData) (h : mapGet s.nodeData n = some d) :
    (∃ d', mapGet (appendToNode s n chunk).nodeData n = some d' ∧
      d'.content = d.content ++ chunk ∧ d'.id = d.id ∧ d'.role = d.role ∧
      d'.timestamp = d.timestamp ∧ d'.provider = d.provider ∧
      d'.model = d.model ∧ d'.summary = d.summary) ∧
    (∀ m, m ≠ n → mapGet (appendToNode s n chunk).nodeData m =
      mapGet s.nodeData m) ∧
    (∀ fn ∈ s.nodes, fn.id ≠ n → fn ∈ (appendToNode s n chunk).nodes) ∧
    (appendToNode s n chunk).edges = s.edges := by
  refine ⟨⟨{ d with content := d.content ++ chunk },
      appendToNode_get_self s n chunk d h, rfl, rfl, rfl, rfl, rfl, rfl, rfl⟩,
    ?_, ?_, appendToNode_edges s n chunk⟩
  · intro m hm
    exact appendToNode_get_other s n chunk m hm
  · intro fn hfn hid
    exact appendToNode_nodes_other s n chunk fn hfn hid

/-- Concrete state for the C6 and C3 witnesses: two independent nodes
`P` (content `"hi"`) and `Q` (content `"yo"`). -/
def c6State : GraphState :=
  { nodes := [],
    edges := [],
    nodeData :=
      [("P", { id := "P", role := .user, content := "hi", timestamp := 0 }),
       ("Q", { id := "Q", role := .assistant, content := "yo", timestamp := 1 })],
    selectedNodeId := none, streamingNodeId := none,
    editingNodeId := none, previewNodeId := none }

/-- Witness for C6 at the concrete state. -/
theorem C6_appendToNode_frame_witness :
    mapGet c6State.nodeData "P" =
      some { id := "P", role := .user, content := "hi", timestamp := 0 } ∧
    ((∃ d', mapGet (appendToNode c6State "P" "!").nodeData "P" = some d' ∧
      d'.content = "hi" ++ "!" ∧ d'.id = "P" ∧ d'.role = Role.user ∧
      d'.timestamp = 0 ∧ d'.provider = none ∧
      d'.model = none ∧ d'.summary = none) ∧
    (∀ m, m ≠ "P" → mapGet (appendToNode c6State "P" "!").nodeData m =
      mapGet c6State.nodeData m) ∧
    (∀ fn ∈ c6State.nodes, fn.id ≠ "P" →
      fn ∈ (appendToNode c6State "P" "!").nodes) ∧
    (appendToNode c6State "P" "!").edges = c6State.edges) :=
  ⟨rfl, C6_appendToNode_frame c6State "P" "!"
    { id := "P", role := .user, content := "hi", timestamp := 0 } rfl⟩

/-- C3: `sendPrompt(n, …)`'s `stream-chunk` listener invokes the
`appendToNode` callback exactly on the events whose `node_id` equals `n`
(and leaves the state untouched for every event carrying a different
`node_id`), so over an arbitrary interleaved event sequence the node
accumulates, in order, precisely the chunks tagged with its own id. -/
theorem C3_sendPrompt_chunk_routing (s : GraphState) (n : String)
    (events : List ChunkPayload) (d : MessageNodeData)
    (h : mapGet s.nodeData n = some d) :
    (∀ e : ChunkPayload, e.node_id = n →
      handleChunkEvent n s e = appendToNode s n e.chunk) ∧
    (∀ e : ChunkPayload, e.node_id ≠ n → handleChunkEvent n s e = s) ∧
    mapGet (runChunkEvents n s events).nodeData n =
      some { d with
             content := d.content ++ String.join (deliveredChunks n events) } := by
  refine ⟨?_, ?_, ?_⟩
  · intro e he
    unfold handleChunkEvent
    rw [if_pos he]
  · intro e he
    unfold handleChunkEvent
    rw [if_neg he]
  · induction events generalizing s d with
    | nil =>
      show mapGet s.nodeData n = _
      rw [show deliveredChunks n [] = [] from rfl]
      rw [show String.join ([] : List String) = "" from rfl]
      rw [show d.content ++ "" = d.content from by simp]
      exact h
    | cons e es ih =>
      unfold runChunkEvents at ih ⊢
      rw [List.foldl_cons]
      by_cases he : e.node_id = n
      · have hstep : handleChunkEvent n s e = appendToNode s n e.chunk := by
          unfold handleChunkEvent
          rw [if_pos he]
        rw [hstep]
        have hget := appendToNode_get_self s n e.chunk d h
        have := ih (appendToNode s n e.chunk)
          { d with content := d.content ++ e.chunk } hget
        rw [this]
        have hdel : deliveredChunks n (e :: es) =
            e.chunk :: deliveredChunks n es := by
          unfold deliveredChunks
          rw [List.filter_cons, if_pos (by simpa using he)]
          rw [List.map_cons]
        rw [hdel, string_join_cons, String.append_assoc]
      · have hstep : handleChunkEvent n s e = s := by
          unfold handleChunkEvent
          rw [if_neg he]
        rw [hstep]
        have := ih s d h
        rw [this]
        have hdel : deliveredChunks n (e :: es) = deliveredChunks n es := by
          unfold deliveredChunks
          rw [List.filter_cons, if_neg (by simpa using he)]
        rw [hdel]

/-- Witness for C3 at the concrete state: two interleaved streams tagged
`P` and `Q`; node `P` receives exactly its own chunks, in order. -/
theorem C3_sendPrompt_chunk_routing_witness :
    mapGet c6State.nodeData "P" =
      some { id := "P", role := .user, content := "hi", timestamp := 0 } ∧
    mapGet (runChunkEvents "P" c6State
        [⟨"P", "a"⟩, ⟨"Q", "b"⟩, ⟨"P", "c"⟩]).nodeData "P" =
      some { id := "P", role := Role.user,
             content := "hi" ++ String.join (deliveredChunks "P" [⟨"P", "a"⟩, ⟨"Q", "b"⟩, ⟨"P", "c"⟩]),
             timestamp := 0 } :=
  ⟨rfl, (C3_sendPrompt_chunk_routing c6State "P"
    [⟨"P", "a"⟩, ⟨"Q", "b"⟩, ⟨"P", "c"⟩]
    { id := "P", role := .user, content := "hi", timestamp := 0 } rfl).2.2⟩

/-- C8: `sendPrompt` filters out every message whose content is only
whitespace before contacting the backend, throws
`'No valid messages to send'` (without invoking the backend — the
`.error` branch) precisely when every supplied message trims to empty,
and otherwise invokes the backend (`.ok`) with the surviving messages in
their original order. -/
theorem C8_sendPrompt_filters_whitespace (messages : List CtxMsg) :
    (sendPromptPrepare messages = .error "No valid messages to send" ↔
      ∀ m ∈ messages, m.content.data.all isJsWhitespace) ∧
    ((∃ m ∈ messages, ¬ m.content.data.all isJsWhitespace = true) →
      sendPromptPrepare messages = .ok
        ((messages.filter
          (fun m => !(m.content.data.all isJsWhitespace))).map
          (fun m => (m.role, m.content)))) := by
  have hfilter : messages.filter (fun m => (jsTrim m.content).length > 0) =
      messages.filter (fun m => !(m.content.data.all isJsWhitespace)) := by
    apply List.filter_congr
    intro m _
    rw [show (decide ((jsTrim m.content).length > 0)) =
        decide (¬ m.content.data.all isJsWhitespace = true) from
      decide_eq_decide.mpr (jsTrim_length_pos_iff m.content)]
    by_cases hall : m.content.data.all isJsWhitespace = true
    · simp [hall]
    · simp [hall]
  constructor
  · unfold sendPromptPrepare
    rw [hfilter]
    constructor
    · intro h
      by_cases hlen : ((messages.filter
          (fun m => !(m.content.data.all isJsWhitespace))).map
          (fun m => (m.role, m.content))).length = 0
      · rw [List.length_map, List.length_eq_zero] at hlen
        intro m hm
        by_contra hall
        have : m ∈ messages.filter
            (fun m => !(m.content.data.all isJsWhitespace)) := by
          rw [List.mem_filter]
          exact ⟨hm, by simpa using hall⟩
        rw [hlen] at this
        cases this
      · rw [if_neg hlen] at h
        cases h
    · intro h
      rw [if_pos]
      rw [List.length_map, List.length_eq_zero, List.filter_eq_nil_iff]
      intro m hm
      simpa using h m hm
  · intro hex
    unfold sendPromptPrepare
    rw [hfilter]
    rw [if_neg]
    rw [List.length_map]
    obtain ⟨m, hm, hall⟩ := hex
    intro hlen
    rw [List.length_eq_zero, List.filter_eq_nil_iff] at hlen
    have h2 : m.content.data.all isJsWhitespace = true := by
      have := hlen m hm
      simpa using this
    exact hall h2

/-- Witness for C8: one whitespace-only message and one real message;
the backend receives exactly the real one. -/
theorem C8_sendPrompt_filters_whitespace_witness :
    (∃ m ∈ [(⟨Role.user, " "⟩ : CtxMsg), ⟨Role.user, "hi"⟩],
      ¬ m.content.data.all isJsWhitespace = true) ∧
    sendPromptPrepare [⟨Role.user, " "⟩, ⟨Role.user, "hi"⟩] =
      .ok (([(⟨Role.user, " "⟩ : CtxMsg), ⟨Role.user, "hi"⟩].filter
        (fun m => !(m.content.data.all isJsWhitespace))).map
        (fun m => (m.role, m.content))) :=
  ⟨⟨⟨Role.user, "hi"⟩, ⟨by decide, by decide⟩⟩,
    (C8_sendPrompt_filters_whitespace
      [⟨Role.user, " "⟩, ⟨Role.user, "hi"⟩]).2
      ⟨⟨Role.user, "hi"⟩, ⟨by decide, by decide⟩⟩⟩

/-- C4: for two nodes whose lineages share no node (in particular two
independent roots, which share no common ancestor), both
`startGeneration` attempts succeed, both nodes are simultaneously in the
ActiveStreamSet, and each remains until its own terminal
`stopStreaming`/`endGeneration`: removing one leaves the other marked. -/
theorem C4_parallel_independent_roots (edges : List Edge) (d e : String)
    (h : ∀ a ∈ lineageChain edges d, a ∉ lineageChain edges e) :
    startGeneration edges [] d = some [d] ∧
    startGeneration edges [d] e = some [e, d] ∧
    d ∈ ([e, d] : List String) ∧ e ∈ ([e, d] : List String) ∧
    stopStreaming [e, d] e = [d] ∧
    stopStreaming [e, d] d = [e] := by
  have hde : d ≠ e := by
    intro heq
    subst heq
    exact h d (self_mem_lineageChain edges d) (self_mem_lineageChain edges d)
  have hed : e ≠ d := fun hh => hde hh.symm
  have hb2 : isNodeBlocked edges [d] e = false := by
    cases hB : isNodeBlocked edges [d] e with
    | false => rfl
    | true =>
      exfalso
      obtain ⟨g, hg, hor⟩ := (isNodeBlocked_iff_spec edges [d] e).mp hB
      have hgd : g = d := by simpa using hg
      subst hgd
      cases hor with
      | inl hreach =>
        have hmem : g ∈ lineageChain edges e :=
          (mem_lineageChain_iff edges e g).mpr hreach
        exact h g (self_mem_lineageChain edges g) hmem
      | inr hreach =>
        have hmem : e ∈ lineageChain edges g :=
          (mem_lineageChain_iff edges g e).mpr hreach
        exact h e hmem (self_mem_lineageChain edges e)
  refine ⟨?_, ?_, by simp, by simp, ?_, ?_⟩
  · unfold startGeneration
    rw [show isNodeBlocked edges [] d = false from rfl]
    rfl
  · unfold startGeneration
    rw [hb2]
    rfl
  · unfold stopStreaming
    simp [List.filter_cons, hde]
  · unfold stopStreaming
    simp [List.filter_cons, hde, hed]

/-- Witness for C4: independent roots `D` and `E` in the empty graph. -/
theorem C4_parallel_independent_roots_witness :
    (∀ a ∈ lineageChain ([] : List Edge) "D", a ∉ lineageChain [] "E") ∧
    (startGeneration [] [] "D" = some ["D"] ∧
     startGeneration [] ["D"] "E" = some ["E", "D"] ∧
     "D" ∈ (["E", "D"] : List String) ∧ "E" ∈ (["E", "D"] : List String) ∧
     stopStreaming ["E", "D"] "E" = ["D"] ∧
     stopStreaming ["E", "D"] "D" = ["E"]) := by
  have hyp : ∀ a ∈ lineageChain ([] : List Edge) "D", a ∉ lineageChain [] "E" := by
    rw [lineageChain_nil, lineageChain_nil]
    decide
  exact ⟨hyp, C4_parallel_independent_roots [] "D" "E" hyp⟩

/-- C5: `handleGenerate` releases the streaming mark of the generated
node on every exit path: whatever the outcome of `sendPrompt` (normal
resolution with any chunks, or rejection), the `finally` block's
`stopStreaming` leaves the agent node unmarked — a (fresh) node never
remains marked as generating after its generation settles. -/
theorem C5_handleGenerate_releases_streaming (s : GraphState)
    (active : List String) (agentNodeId provider : String)
    (model : Option String) (now : Nat) (outcome : GenOutcome)
    (h : agentNodeId ∉ active) :
    agentNodeId ∉
      (handleGenerate s active agentNodeId provider model now outcome).2 := by
  unfold handleGenerate
  split
  · simpa using h
  · split
    · simpa using h
    · split_ifs with h1 h2
      · simpa using h
      · simpa using h
      · simp [stopStreaming, List.mem_filter]

/-- Node data for the C5/C7 witness preview node `P`. -/
def mdP : MessageNodeData :=
  { id := "P", role := .user, content := "hi", timestamp := 0 }

/-- Concrete state for the C5/C7 witnesses: the side panel previews the
user node `P`, whose content is nonempty, and nothing is generating. -/
def c7State : GraphState :=
  { nodes := [],
    edges := [],
    nodeData := [("P", mdP)],
    selectedNodeId := none, streamingNodeId := none,
    editingNodeId := none, previewNodeId := some "P" }

/-- Witness for C5: a failed generation on the fresh agent node `A`
leaves `A` unmarked. -/
theorem C5_handleGenerate_releases_streaming_witness :
    ("A" : String) ∉ ([] : List String) ∧
    "A" ∉ (handleGenerate c7State [] "A" "claude-code" none 5
      (.failure ["he"] "boom")).2 :=
  ⟨by decide, C5_handleGenerate_releases_streaming c7State [] "A"
    "claude-code" none 5 (.failure ["he"] "boom") (by decide)⟩

/-- C7: when a generation fails after streaming began, everything already
streamed into the agent node is retained: the failure path appends the
error marker after the streamed chunks, so the node's final content is
exactly the streamed text followed by the marker — nothing is removed or
replaced. -/
theorem C7_failure_retains_streamed_content (s : GraphState)
    (active : List String) (agentNodeId provider : String)
    (model : Option String) (now : Nat) (chunks : List String) (err : String)
    (pid : String) (d : MessageNodeData)
    (hpid : s.previewNodeId = some pid)
    (hd : mapGet s.nodeData pid = some d)
    (htrim : ¬ jsTrim d.content = "")
    (hblocked : isNodeBlocked s.edges active pid = false) :
    mapGet (handleGenerate s active agentNodeId provider model now
        (.failure chunks err)).1.nodeData agentNodeId =
      some { id := agentNodeId, role := Role.assistant,
             content := String.join chunks ++ ("\n\n[Error: " ++ err ++ "]"),
             timestamp := now, provider := some provider, model := model } := by
  have key : (handleGenerate s active agentNodeId provider model now
        (.failure chunks err)).1 =
      appendToNode
        (chunks.foldl (fun st c => appendToNode st agentNodeId c)
          { createAgentNodeDownstream s pid agentNodeId provider model now with
            previewNodeId := some agentNodeId })
        agentNodeId ("\n\n[Error: " ++ err ++ "]") := by
    unfold handleGenerate
    split
    · rename_i heq
      rw [hpid] at heq
      cases heq
    · rename_i pid2 heq
      rw [hpid] at heq
      injection heq with heq2
      subst heq2
      split
      · rename_i heq3
        rw [hd] at heq3
        cases heq3
      · rename_i d2 heq3
        rw [hd] at heq3
        injection heq3 with heq4
        subst heq4
        rw [if_neg htrim, hblocked]
        rfl
  rw [key]
  have h1 : mapGet (createAgentNodeDownstream s pid agentNodeId provider
      model now).nodeData agentNodeId =
      some { id := agentNodeId, role := Role.assistant, content := "",
             timestamp := now, provider := some provider, model := model } := by
    unfold createAgentNodeDownstream
    exact mapGet_mapSet_self _ _ _
  have h2 := foldl_appendToNode_get chunks
    { createAgentNodeDownstream s pid agentNodeId provider model now with
      previewNodeId := some agentNodeId }
    agentNodeId
    { id := agentNodeId, role := Role.assistant, content := "",
      timestamp := now, provider := some provider, model := model }
    h1
  have h3 := appendToNode_get_self _ agentNodeId
    ("\n\n[Error: " ++ err ++ "]") _ h2
  rw [h3]
  have hjoin : chunks.foldl (fun acc c => acc ++ c) "" = String.join chunks := by
    rw [foldl_string_append]
    simp
  simp only [hjoin]

/-- Witness for C7: a generation on the fresh agent node `A` streams
`"he"`, `"llo"` and then fails with error `boom`; the streamed content
survives with the marker appended. -/
theorem C7_failure_retains_streamed_content_witness :
    c7State.previewNodeId = some "P" ∧
    mapGet c7State.nodeData "P" = some mdP ∧
    ¬ jsTrim mdP.content = "" ∧
    isNodeBlocked c7State.edges [] "P" = false ∧
    mapGet (handleGenerate c7State [] "A" "claude-code" none 5
        (.failure ["he", "llo"] "boom")).1.nodeData "A" =
      some { id := "A", role := Role.assistant,
             content := String.join ["he", "llo"] ++ ("\n\n[Error: " ++ "boom" ++ "]"),
             timestamp := 5, provider := some "claude-code", model := none } :=
  ⟨rfl, rfl, by decide, rfl,
    C7_failure_retains_streamed_content c7State [] "A" "claude-code" none 5
      ["he", "llo"] "boom" "P" mdP rfl rfl (by decide) rfl⟩

end ThoughtTree

